import Mathlib

/-!
Shallow embedding of the plugin manager (command/plugin_manager.go) of the
otto repository, together with theorems settling the claims about it.

Modelling conventions:
- Go strings and byte slices become String and List Nat (one Nat per byte).
- Go maps used only through key lookup become association lists with an
  insert-that-overwrites operation (mapSet below), matching Go map
  assignment semantics.
- External effects are oracle parameters: reading a file at a path is a
  function String to Option (List Nat) (none models an open or read error),
  the md5 digest of the stdlib is a function parameter, the outcome of
  launching a plugin process (client, handshake, metadata) is a function
  from the plugin to Except String Meta, and file creation is an
  Except String Unit parameter.
- A nil pointer dereference (a Go panic) is modelled as Option.none in the
  result of the operation that dereferences.
- The concurrent loops of LoadAll and StoreUsed are modelled sequentially;
  each goroutine owns exactly one plugin, so the per-plugin results do not
  depend on interleaving. The semaphore discipline itself is modelled
  separately as a transition system for the concurrency-bound claim.
-/

namespace Otto

/-- Model of app.Meta: the metadata a loaded plugin reports. Only the
Tuples field is read by the plugin manager; app.Tuple is modelled as an
opaque String key. -/
structure Meta where
  Tuples : List String
deriving DecidableEq, Repr

/-- Model of the Plugin struct. Path, Args, MD5 are the JSON fields.
AppMeta is nil before Load (none). App is the capability factory field;
it is nil before Load, and after a successful Load it holds a closure
whose only observable behaviour is marking the plugin used and delegating
to the client, so it is modelled by the Bool appSet recording whether the
closure is installed. used is the unexported usage flag. -/
structure Plugin where
  Path : String
  Args : List String
  MD5 : String
  AppMeta : Option Meta
  appSet : Bool
  used : Bool
deriving DecidableEq, Repr

/-- A plugin as it appears in the JSON manifest: exactly the fields with a
JSON tag (path, args, md5); App and AppMeta are tagged "-" and the used
flag is unexported, so none of them round-trips. -/
structure ManifestEntry where
  Path : String
  Args : List String
  MD5 : String
deriving DecidableEq, Repr

/-- JSON marshalling of a Plugin: keep exactly the tagged fields. -/
def encodePlugin (p : Plugin) : ManifestEntry :=
  ⟨p.Path, p.Args, p.MD5⟩

/-- JSON unmarshalling of a manifest entry into a fresh Plugin: the
untagged fields take their Go zero values (nil metadata, nil factory,
used = false). -/
def decodePlugin (e : ManifestEntry) : Plugin :=
  ⟨e.Path, e.Args, e.MD5, none, false, false⟩

/-- One hexadecimal digit, as in encoding/hex. -/
def hexDigitChar (n : Nat) : Char :=
  if n < 10 then Char.ofNat (48 + n) else Char.ofNat (87 + n)

/-- Model of hex.EncodeToString: two lowercase hex digits per byte. -/
def hexEncodeToString (bs : List Nat) : String :=
  String.mk (bs.foldr (fun b acc => hexDigitChar (b / 16) :: hexDigitChar (b % 16) :: acc) [])

/-- The operations that touch a single Plugin value, for the per-handle
state machine. loadOk is the success path of Load (lines 108-120 of the
source): it stores the metadata, resets used to false and installs the
wrapping factory. loadFail is any failure of Load before that point, which
leaves the handle fields as they were. invoke is a call of the installed
factory closure, which marks the plugin used. calcOk and calcFail are
CalcMD5 on the file content read from disk. query covers Used and String,
which read without writing. -/
inductive PluginOp where
  | loadOk (meta : Meta)
  | loadFail
  | invoke
  | calcOk (content : List Nat)
  | calcFail
  | query
deriving DecidableEq, Repr

/-- Single step of the per-handle state machine. dg is the md5 digest
function of the Go stdlib (an external collaborator), passed as a
parameter. -/
def pstep (dg : List Nat → List Nat) (p : Plugin) : PluginOp → Plugin
  | .loadOk meta => { p with AppMeta := some meta, appSet := true, used := false }
  | .loadFail => p
  | .invoke => if p.appSet then { p with used := true } else p
  | .calcOk content => { p with MD5 := hexEncodeToString (dg content) }
  | .calcFail => p
  | .query => p

/-- Run a sequence of per-handle operations. -/
def prun (dg : List Nat → List Nat) (p : Plugin) (ops : List PluginOp) : Plugin :=
  ops.foldl (pstep dg) p

/-- Model of Plugin.CalcMD5: open and read the file at Path (the oracle rf
returns none on an open or read error), then store the hex digest in MD5. -/
def calcMD5 (rf : String → Option (List Nat)) (dg : List Nat → List Nat)
    (p : Plugin) : Except String Plugin :=
  match rf p.Path with
  | none => .error ("read " ++ p.Path)
  | some content => .ok (pstep dg p (.calcOk content))

/-- Model of Plugin.Load. The oracle gives the combined outcome of
starting the process, obtaining the client, the app implementation and its
metadata; on success the handle stores the metadata, installs the wrapping
factory and resets used. Note that Load reads neither MD5 nor the file
content: the source performs no hash verification. Returns the updated
plugin and the error, if any. -/
def loadPlugin (outcome : Plugin → Except String Meta) (p : Plugin) :
    Plugin × Option String :=
  match outcome p with
  | .error e => (pstep (fun c => c) p .loadFail, some e)
  | .ok meta => (pstep (fun c => c) p (.loadOk meta), none)

/-- Model of Plugin.Used. -/
def pluginUsed (p : Plugin) : Bool := p.used

/-- Model of the PluginManager struct. PluginMap is the map of built-in
plugins; only its keys are read, in some iteration order, so it is
modelled as the list of keys in that order. plugins is the private slice,
none for a nil slice. -/
structure PluginManager where
  PluginDirs : List String
  PluginMap : List String
  plugins : Option (List Plugin)
deriving DecidableEq, Repr

/-- Model of PluginManager.Plugins: returns the private slice. -/
def PluginManager.Plugins (m : PluginManager) : Option (List Plugin) :=
  m.plugins

/-- A built-in plugin handle as Discover constructs it: the path of the
currently running executable and the two-token selector arguments. The
remaining fields are Go zero values. -/
def mkBuiltinPlugin (exePath : String) (key : String) : Plugin :=
  ⟨exePath, ["plugin-builtin", key], "", none, false, false⟩

/-- Model of PluginManager.Discover. testingMode suppresses the built-in
set; exeRes is the result of osext.Executable. On an executable lookup
error the manager is left untouched; otherwise the plugins slice is
replaced (never appended to) with one handle per PluginMap key, and in
testing mode with the empty, non-nil slice. -/
def PluginManager.Discover (testingMode : Bool) (exeRes : Except String String)
    (m : PluginManager) : Except String PluginManager :=
  if testingMode then
    .ok { m with plugins := some [] }
  else
    match exeRes with
    | .error e => .error e
    | .ok exePath =>
        .ok { m with plugins := some (m.PluginMap.map (mkBuiltinPlugin exePath)) }

/-- Result of one load pass of LoadAll over the plugin slice: the updated
plugins, the aggregated per-plugin error messages, and the number of
plugins on which Load was attempted. -/
structure LoadPass where
  plugins : List Plugin
  errs : List String
  attempts : Nat
deriving DecidableEq, Repr

/-- The load loop of LoadAll: one task per plugin, each attempting Load
and appending a wrapped error message to the shared accumulator on
failure. Modelled sequentially in slice order. -/
def loadLoop (outcome : Plugin → Except String Meta) : List Plugin → LoadPass
  | [] => ⟨[], [], 0⟩
  | p :: rest =>
    let r := loadPlugin outcome p
    let t := loadLoop outcome rest
    ⟨r.1 :: t.plugins,
     (match r.2 with
      | some e => ("Error loading plugin " ++ p.Path ++ ": " ++ e) :: t.errs
      | none => t.errs),
     t.attempts + 1⟩

/-- Model of PluginManager.LoadAll: if the plugin slice is nil, Discover
runs first (and its error is returned directly); then every plugin is
loaded and the collected error messages are returned together with the
attempt count (the merr of the source is nil exactly when the list is
empty). -/
def PluginManager.LoadAll (outcome : Plugin → Except String Meta)
    (testingMode : Bool) (exeRes : Except String String)
    (m : PluginManager) : Except String (PluginManager × List String × Nat) :=
  match m.plugins with
  | none =>
      match m.Discover testingMode exeRes with
      | .error e => .error e
      | .ok m1 =>
          let pass := loadLoop outcome (m1.plugins.getD [])
          .ok ({ m1 with plugins := some pass.plugins }, pass.errs, pass.attempts)
  | some ps =>
      let pass := loadLoop outcome ps
      .ok ({ m with plugins := some pass.plugins }, pass.errs, pass.attempts)

/-- The current version of the used plugin manifest format. -/
def usedPluginVersion : Int := 1

/-- Model of usedPluginWrapper, the JSON shape of the manifest file. -/
structure usedPluginWrapper where
  Version : Int
  Plugins : List ManifestEntry
deriving DecidableEq, Repr

/-- The hashing a used plugin undergoes inside StoreUsed: CalcMD5 updates
the plugin in place on success; on failure the plugin is left unchanged.
The error itself is assigned to a variable that shadows the aggregate
error of StoreUsed (line 212 of the source declares a new err inside the
if statement, and line 215 writes that inner err), so no error escapes
the goroutine; this function therefore returns only the plugin. -/
def hashInPlace (rf : String → Option (List Nat)) (dg : List Nat → List Nat)
    (p : Plugin) : Plugin :=
  match calcMD5 rf dg p with
  | .ok q => q
  | .error _ => p

/-- Model of PluginManager.StoreUsed. Filters the slice to the used
plugins, hashes each of them in place (the per-plugin hash errors are
swallowed by the variable shadowing described at hashInPlace, so the
aggregate error checked at line 221 is always nil), then creates the file
at the destination (createRes models os.Create and the JSON encode) and
writes the wrapper. The first component is the manager after the
in-place MD5 mutations, which are visible through the shared pointers in
the plugins slice; the second is the file outcome, with ok w meaning the
manifest w was written. -/
def PluginManager.StoreUsed (rf : String → Option (List Nat))
    (dg : List Nat → List Nat) (createRes : Except String Unit)
    (m : PluginManager) : PluginManager × Except String usedPluginWrapper :=
  let usedPlugins := (m.plugins.getD []).filter (fun p => p.used)
  let hashed := usedPlugins.map (hashInPlace rf dg)
  let m1 : PluginManager :=
    { m with plugins := m.plugins.map (List.map
        (fun p => if p.used then hashInPlace rf dg p else p)) }
  match createRes with
  | .error e => (m1, .error e)
  | .ok _ => (m1, .ok ⟨usedPluginVersion, hashed.map encodePlugin⟩)

/-- The error results of LoadUsed: a file open or JSON decode failure, the
forward-compatibility rejection of a manifest version newer than
usedPluginVersion, or the aggregated load errors of the LoadAll it runs. -/
inductive LoadUsedError where
  | ioErr (msg : String)
  | versionMismatch
  | loadErrs (errs : List String)
deriving DecidableEq, Repr

/-- Model of PluginManager.LoadUsed. parsed is the combined outcome of
opening the file and decoding the wrapper. A version greater than
usedPluginVersion is rejected before the plugins slice is touched; then
the slice is replaced by the decoded handles and LoadAll runs over
exactly that (non-nil) slice, so Discover is not re-run. -/
def PluginManager.LoadUsed (parsed : Except String usedPluginWrapper)
    (outcome : Plugin → Except String Meta)
    (testingMode : Bool) (exeRes : Except String String)
    (m : PluginManager) : PluginManager × Option LoadUsedError :=
  match parsed with
  | .error e => (m, some (.ioErr e))
  | .ok w =>
      if w.Version > usedPluginVersion then
        (m, some .versionMismatch)
      else
        let m1 : PluginManager := { m with plugins := some (w.Plugins.map decodePlugin) }
        match m1.LoadAll outcome testingMode exeRes with
        | .error e => (m1, some (.ioErr e))
        | .ok (m2, errs, _) => (m2, if errs.isEmpty then none else some (.loadErrs errs))

/-- Go map assignment on an association list: overwrite the entry with the
given key if present, otherwise append a new entry. Keys stay unique. -/
def mapSet (l : List (String × Nat)) (k : String) (v : Nat) : List (String × Nat) :=
  match l with
  | [] => [(k, v)]
  | kv :: rest => if kv.1 = k then (kv.1, v) :: rest else kv :: mapSet rest k v

/-- Lookup in the association-list model of a Go map. -/
def mapGet (l : List (String × Nat)) (k : String) : Option Nat :=
  match l with
  | [] => none
  | kv :: rest => if kv.1 = k then some kv.2 else mapGet rest k

/-- Model of otto.CoreConfig restricted to the field this subsystem
touches: Apps, the map from app.Tuple to app.Factory. A factory value is
identified by the index of the handle that owns it in the plugin slice
(the closure installed by that Load). none models a nil map. -/
structure CoreConfig where
  Apps : Option (List (String × Nat))
deriving DecidableEq, Repr

/-- The nested loop of ConfigureCore from plugin index i onward: for each
plugin, for each tuple of its metadata, assign the factory of that plugin
into the table. Dereferencing the AppMeta of a plugin that never loaded
(none) is a nil pointer dereference, modelled as none. -/
def configureLoop : List Plugin → Nat → List (String × Nat) → Option (List (String × Nat))
  | [], _, table => some table
  | p :: rest, i, table =>
    match p.AppMeta with
    | none => none
    | some meta => configureLoop rest (i + 1) (meta.Tuples.foldl (fun t u => mapSet t u i) table)

/-- Model of PluginManager.ConfigureCore: initialize the Apps map if nil,
then install every factory of every plugin in the slice under each of its
metadata tuples. none models the panic on a handle whose metadata was
never loaded. -/
def PluginManager.ConfigureCore (m : PluginManager) (core : CoreConfig) :
    Option CoreConfig :=
  (configureLoop (m.plugins.getD []) 0 (core.Apps.getD [])).map
    (fun table => ⟨some table⟩)

/-- Modelled from the spec: the bounded concurrency limiter of
helper/semaphore, which is repository code outside the given source file.
Section 5 of the spec: one worker task per handle, a shared semaphore
with permit count equal to the number of processing units, acquire a
permit before doing the work (Load or CalcMD5) and release it on
completion. A task is pending before Acquire, working between Acquire
and Release, done after Release. -/
inductive TaskPhase where
  | pending
  | working
  | done
deriving DecidableEq, Repr

/-- State of one load or hash pass: the free permits of the semaphore and
the phase of each per-plugin task. -/
structure SemaState where
  avail : Nat
  tasks : List TaskPhase
deriving DecidableEq, Repr

/-- Initial state of a pass: all permits free, one pending task per
plugin in the batch. -/
def semaInit (numCPU : Nat) (numTasks : Nat) : SemaState :=
  ⟨numCPU, List.replicate numTasks .pending⟩

/-- Interleaving steps of a pass: a pending task may acquire a free
permit and start its work; a working task may finish, releasing its
permit. -/
inductive SemaStep : SemaState → SemaState → Prop where
  | acquire (s : SemaState) (i : Nat) (hp : s.tasks.get? i = some .pending)
      (ha : 0 < s.avail) :
      SemaStep s ⟨s.avail - 1, s.tasks.set i .working⟩
  | release (s : SemaState) (i : Nat) (hw : s.tasks.get? i = some .working) :
      SemaStep s ⟨s.avail + 1, s.tasks.set i .done⟩

/-- The states a pass with numCPU permits and numTasks tasks can reach. -/
inductive SemaReach (numCPU numTasks : Nat) : SemaState → Prop where
  | init : SemaReach numCPU numTasks (semaInit numCPU numTasks)
  | step {s t : SemaState} : SemaReach numCPU numTasks s → SemaStep s t →
      SemaReach numCPU numTasks t

/-- Number of tasks currently executing their work. -/
def countWorking (l : List TaskPhase) : Nat :=
  l.countP (fun t => match t with | .working => true | _ => false)

/-! Helper lemmas shared by several claims. -/

/-- The load loop visits every plugin: it returns the per-plugin Load
results in slice order, the wrapped error message of each failing plugin,
and one attempt per plugin. -/
theorem loadLoop_spec (outcome : Plugin → Except String Meta) (ps : List Plugin) :
    loadLoop outcome ps =
      ⟨ps.map (fun p => (loadPlugin outcome p).1),
       ps.filterMap (fun p =>
         ((loadPlugin outcome p).2).map
           (fun e => "Error loading plugin " ++ p.Path ++ ": " ++ e)),
       ps.length⟩ := by
  induction ps with
  | nil => rfl
  | cons p rest ih =>
      simp only [loadLoop, ih, List.map_cons, List.filterMap_cons, List.length_cons]
      cases h : (loadPlugin outcome p).2 <;> simp [h]

/-- Load never changes the invocation recipe or the stored hash. -/
theorem loadPlugin_fields (outcome : Plugin → Except String Meta) (p : Plugin) :
    ((loadPlugin outcome p).1).Path = p.Path ∧
    ((loadPlugin outcome p).1).Args = p.Args ∧
    ((loadPlugin outcome p).1).MD5 = p.MD5 := by
  cases h : outcome p <;> simp [loadPlugin, h, pstep]

/-- A non-empty byte list hex-encodes to a non-empty string. -/
theorem hexEncodeToString_ne_empty (bs : List Nat) (h : bs ≠ []) :
    hexEncodeToString bs ≠ "" := by
  cases bs with
  | nil => exact absurd rfl h
  | cons b rest =>
      intro hcon
      have := congrArg String.data hcon
      simp [hexEncodeToString] at this

/-! Claim theorems. -/

/-- C1: evaluating StoreUsed on a handle set with one used plugin whose
file cannot be read. CalcMD5 fails on that plugin, yet StoreUsed reports
no error and writes a manifest whose md5 field is empty: the per-plugin
hash error is assigned to a variable that shadows the aggregate error, so
the abort-before-writing branch is unreachable. -/
theorem storeUsed_writes_despite_hash_error :
    calcMD5 (fun _ => none) (fun _ => []) ⟨"/a", ["x"], "", none, false, true⟩
      = .error "read /a" ∧
    PluginManager.StoreUsed (fun _ => none) (fun _ => []) (.ok ())
        ⟨[], [], some [⟨"/a", ["x"], "", none, false, true⟩]⟩
      = (⟨[], [], some [⟨"/a", ["x"], "", none, false, true⟩]⟩,
         .ok ⟨usedPluginVersion, [⟨"/a", ["x"], ""⟩]⟩) := by
  constructor
  · rfl
  · rfl

/-- C2: Load performs no hash verification. A plugin whose stored MD5
field differs from the hex digest of the live file content (recomputing
it with CalcMD5 yields a different value) still loads successfully, with
the stale MD5 left in place. -/
theorem load_succeeds_despite_md5_mismatch :
    calcMD5 (fun _ => some [1, 2, 3]) (fun _ => List.replicate 16 0)
        ⟨"/x", [], "ff", none, false, false⟩
      = .ok ⟨"/x", [], "00000000000000000000000000000000", none, false, false⟩ ∧
    "00000000000000000000000000000000" ≠ "ff" ∧
    loadPlugin (fun _ => .ok ⟨["t"]⟩) ⟨"/x", [], "ff", none, false, false⟩
      = (⟨"/x", [], "ff", some ⟨["t"]⟩, true, false⟩, none) := by
  refine ⟨?_, by decide, rfl⟩
  rfl

/-- C4: a manifest whose version exceeds usedPluginVersion makes LoadUsed
fail with the version-mismatch error before the plugins slice is
assigned, leaving the manager exactly as it was. -/
theorem loadUsed_version_gate (w : usedPluginWrapper)
    (outcome : Plugin → Except String Meta) (tm : Bool)
    (exeRes : Except String String) (m : PluginManager)
    (h : w.Version > usedPluginVersion) :
    m.LoadUsed (.ok w) outcome tm exeRes = (m, some .versionMismatch) := by
  simp [PluginManager.LoadUsed, h]

/-- Witness for C4 at a concrete manifest of version 2. -/
theorem loadUsed_version_gate_witness :
    (2 : Int) > usedPluginVersion ∧
    PluginManager.LoadUsed (.ok ⟨2, []⟩) (fun _ => .error "e") false (.error "e")
        ⟨[], [], none⟩
      = (⟨[], [], none⟩, some .versionMismatch) :=
  ⟨by decide,
   loadUsed_version_gate ⟨2, []⟩ (fun _ => .error "e") false (.error "e")
     ⟨[], [], none⟩ (by decide)⟩

/-- C5: on a populated handle set, LoadAll attempts Load on every handle
(the attempt count equals the handle count), the resulting slice holds
each per-handle Load result independently of its siblings, and the
failures are aggregated into one combined error list returned after the
whole batch. -/
theorem loadAll_attempts_every_handle (outcome : Plugin → Except String Meta)
    (tm : Bool) (exeRes : Except String String)
    (dirs pmap : List String) (ps : List Plugin) :
    PluginManager.LoadAll outcome tm exeRes ⟨dirs, pmap, some ps⟩
      = .ok (⟨dirs, pmap, some (ps.map (fun p => (loadPlugin outcome p).1))⟩,
             ps.filterMap (fun p =>
               ((loadPlugin outcome p).2).map
                 (fun e => "Error loading plugin " ++ p.Path ++ ": " ++ e)),
             ps.length) := by
  simp [PluginManager.LoadAll, loadLoop_spec]

/-- C8: outside testing mode, Discover replaces whatever plugin slice the
manager had with exactly one handle per PluginMap key, pointing at the
running executable with the two-token selector arguments; running it a
second time therefore yields a slice of the same length, not double. -/
theorem discover_replaces_with_builtins (exePath exePath2 : String)
    (m : PluginManager) :
    PluginManager.Discover false (.ok exePath) m
      = .ok { m with plugins := some (m.PluginMap.map
          (fun k => ⟨exePath, ["plugin-builtin", k], "", none, false, false⟩)) } ∧
    (Except.map (fun m2 => (m2.plugins.getD []).length)
        ((PluginManager.Discover false (.ok exePath) m).bind
          (PluginManager.Discover false (.ok exePath2)))
      = Except.map (fun m1 => (m1.plugins.getD []).length)
          (PluginManager.Discover false (.ok exePath) m)) := by
  constructor
  · rfl
  · simp [PluginManager.Discover, Except.bind, Except.map, mkBuiltinPlugin]

/-- C10: LoadAll runs Discover exactly when the plugin slice is nil. With
a nil slice a failing Discover aborts LoadAll, and a succeeding Discover
feeds LoadAll the discovered set; with an empty but non-nil slice (what
Discover produces in testing mode) LoadAll does not touch Discover at
all, even one that would fail, and performs zero load attempts. -/
theorem loadAll_discover_iff_nil (outcome : Plugin → Except String Meta)
    (e : String) (tm : Bool) (exeRes : Except String String)
    (dirs pmap : List String) :
    PluginManager.LoadAll outcome false (.error e) ⟨dirs, pmap, none⟩ = .error e ∧
    (∀ exePath, PluginManager.LoadAll outcome false (.ok exePath) ⟨dirs, pmap, none⟩
      = .ok (⟨dirs, pmap,
              some ((pmap.map (mkBuiltinPlugin exePath)).map
                (fun p => (loadPlugin outcome p).1))⟩,
             (pmap.map (mkBuiltinPlugin exePath)).filterMap (fun p =>
               ((loadPlugin outcome p).2).map
                 (fun e2 => "Error loading plugin " ++ p.Path ++ ": " ++ e2)),
             (pmap.map (mkBuiltinPlugin exePath)).length)) ∧
    (∀ ps : List Plugin,
      PluginManager.LoadAll outcome tm exeRes ⟨dirs, pmap, some ps⟩
        = .ok (⟨dirs, pmap, some (ps.map (fun p => (loadPlugin outcome p).1))⟩,
               ps.filterMap (fun p =>
                 ((loadPlugin outcome p).2).map
                   (fun e2 => "Error loading plugin " ++ p.Path ++ ": " ++ e2)),
               ps.length)) ∧
    PluginManager.LoadAll outcome tm exeRes ⟨dirs, pmap, some []⟩
      = .ok (⟨dirs, pmap, some []⟩, [], 0) := by
  refine ⟨rfl, fun exePath => ?_, fun ps => ?_, rfl⟩ <;>
    simp [PluginManager.LoadAll, PluginManager.Discover, loadLoop_spec]

/-- C6 counterexample: invoking the installed factory marks the handle
used, but a subsequent re-Load of the same handle resets the flag to
false (line 114 of the source assigns used = false on every successful
Load), so the flag does not stay true under every subsequent operation. -/
theorem used_flag_reset_by_reload :
    pluginUsed (prun (fun c => c) ⟨"/p", [], "", none, false, false⟩
      [.loadOk ⟨["t"]⟩, .invoke]) = true ∧
    pluginUsed (prun (fun c => c) ⟨"/p", [], "", none, false, false⟩
      [.loadOk ⟨["t"]⟩, .invoke, .loadOk ⟨["t"]⟩]) = false := by
  constructor <;> rfl

/-- C6 amended: used is false immediately after any successful Load (so
after loadAll and before any factory invocation), invoking the installed
factory sets it to true, and it stays true under every subsequent
per-handle operation except a successful re-Load, which resets it to
false as part of re-initialization. -/
theorem used_flag_monotone_between_loads (dg : List Nat → List Nat)
    (p q : Plugin) (meta : Meta) (op : PluginOp)
    (hused : p.used = true) (hnotload : ∀ mt, op ≠ PluginOp.loadOk mt) :
    (pstep dg p op).used = true ∧
    (pstep dg q (.loadOk meta)).used = false ∧
    (q.appSet = true → (pstep dg q .invoke).used = true) := by
  refine ⟨?_, rfl, fun hq => by simp [pstep, hq]⟩
  cases op with
  | loadOk mt => exact absurd rfl (hnotload mt)
  | loadFail => exact hused
  | invoke => by_cases hs : p.appSet <;> simp [pstep, hs, hused]
  | calcOk c => exact hused
  | calcFail => exact hused
  | query => exact hused

/-- Witness for the amended C6 on a concrete used handle and the query
operation (the Used observer). -/
theorem used_flag_monotone_between_loads_witness :
    ((⟨"/p", [], "", some ⟨["t"]⟩, true, true⟩ : Plugin).used = true) ∧
    ((pstep (fun c => c) ⟨"/p", [], "", some ⟨["t"]⟩, true, true⟩ .query).used = true ∧
     (pstep (fun c => c) ⟨"/q", [], "", none, true, false⟩ (.loadOk ⟨["t"]⟩)).used = false ∧
     ((⟨"/q", [], "", none, true, false⟩ : Plugin).appSet = true →
       (pstep (fun c => c) ⟨"/q", [], "", none, true, false⟩ .invoke).used = true)) :=
  ⟨rfl,
   used_flag_monotone_between_loads (fun c => c)
     ⟨"/p", [], "", some ⟨["t"]⟩, true, true⟩ ⟨"/q", [], "", none, true, false⟩
     ⟨["t"]⟩ .query rfl (fun _ h => PluginOp.noConfusion h)⟩

/-- C3 counterexample: a handle set holding one successfully loaded
handle (metadata present, declaring tuple T) and one handle that never
loaded (nil metadata). The claim predicts a table mapping T to the loaded
factory; the code iterates every handle and dereferences the nil
metadata of the unloaded one, so no table is produced at all. -/
theorem configureCore_panics_on_unloaded_handle :
    (⟨"/a", [], "", some ⟨["T"]⟩, true, false⟩ : Plugin).AppMeta.isSome = true ∧
    PluginManager.ConfigureCore
        ⟨[], [], some [⟨"/a", [], "", some ⟨["T"]⟩, true, false⟩,
                       ⟨"/b", [], "", none, false, false⟩]⟩
        ⟨none⟩
      = none := by
  constructor <;> rfl

/-- The table entry the claim predicts for a tuple: the index of the last
handle in iteration order whose metadata tuple list declares it, shifted
as the recursion walks the list. -/
def lastDecl : List (List String) → String → Option Nat
  | [], _ => none
  | ts :: rest, t =>
      match lastDecl rest t with
      | some j => some (j + 1)
      | none => if t ∈ ts then some 0 else none

/-- The keys of the association-list model of a Go map. -/
def keysOf (l : List (String × Nat)) : List String :=
  l.map Prod.fst

theorem mapGet_mapSet_self (l : List (String × Nat)) (k : String) (v : Nat) :
    mapGet (mapSet l k v) k = some v := by
  induction l with
  | nil => simp [mapSet, mapGet]
  | cons kv rest ih =>
      by_cases h : kv.1 = k
      · simp [mapSet, mapGet, h]
      · simp [mapSet, mapGet, h, ih]

theorem mapGet_mapSet_ne (l : List (String × Nat)) (k k2 : String) (v : Nat)
    (h : k2 ≠ k) : mapGet (mapSet l k v) k2 = mapGet l k2 := by
  have hne : ¬k = k2 := fun h2 => h h2.symm
  induction l with
  | nil => simp [mapSet, mapGet, hne]
  | cons kv rest ih =>
      by_cases h0 : kv.1 = k
      · subst h0
        simp [mapSet, mapGet, hne]
      · by_cases h1 : kv.1 = k2
        · simp [mapSet, mapGet, h0, h1, h]
        · simp [mapSet, mapGet, h0, h1, ih]

theorem mem_keysOf_mapSet (l : List (String × Nat)) (k x : String) (v : Nat) :
    x ∈ keysOf (mapSet l k v) ↔ x ∈ keysOf l ∨ x = k := by
  induction l with
  | nil => simp [mapSet, keysOf, eq_comm]
  | cons kv rest ih =>
      simp only [keysOf, List.map_cons, List.mem_cons] at ih ⊢
      by_cases h : kv.1 = k
      · subst h
        rw [show mapSet (kv :: rest) kv.1 v = (kv.1, v) :: rest from by simp [mapSet]]
        simp only [List.map_cons, List.mem_cons]
        tauto
      · simp only [mapSet, if_neg h, List.map_cons, List.mem_cons]
        rw [ih]
        tauto

theorem nodup_keysOf_mapSet (l : List (String × Nat)) (k : String) (v : Nat)
    (h : (keysOf l).Nodup) : (keysOf (mapSet l k v)).Nodup := by
  induction l with
  | nil => simp [mapSet, keysOf]
  | cons kv rest ih =>
      simp only [keysOf, List.map_cons, List.nodup_cons] at h
      by_cases h0 : kv.1 = k
      · simp only [mapSet, if_pos h0, keysOf, List.map_cons, List.nodup_cons]
        exact ⟨h.1, h.2⟩
      · simp only [mapSet, if_neg h0, keysOf, List.map_cons, List.nodup_cons]
        refine ⟨?_, ih h.2⟩
        intro hmem
        rcases (mem_keysOf_mapSet rest k kv.1 v).mp hmem with h1 | h1
        · exact h.1 h1
        · exact h0 h1

/-- Installing one metadata tuple list at factory index i: the tuple
lookup afterwards finds i exactly for the declared tuples. -/
theorem mapGet_installTuples (i : Nat) (t : String) (ts : List String) :
    ∀ table : List (String × Nat),
      mapGet (ts.foldl (fun tb u => mapSet tb u i) table) t
        = if t ∈ ts then some i else mapGet table t := by
  induction ts with
  | nil => intro table; simp
  | cons u rest ih =>
      intro table
      simp only [List.foldl_cons, ih (mapSet table u i)]
      by_cases hmem : t ∈ rest
      · simp [hmem]
      · by_cases hu : t = u
        · subst hu
          simp [hmem, mapGet_mapSet_self]
        · simp [hmem, hu, mapGet_mapSet_ne table u t i hu]

theorem nodup_installTuples (i : Nat) (ts : List String) :
    ∀ table : List (String × Nat), (keysOf table).Nodup →
      (keysOf (ts.foldl (fun tb u => mapSet tb u i) table)).Nodup := by
  induction ts with
  | nil => intro table h; exact h
  | cons u rest ih =>
      intro table h
      exact ih (mapSet table u i) (nodup_keysOf_mapSet table u i h)

/-- The nested installation loop of ConfigureCore, characterized: when
every handle carries loaded metadata it produces a table whose lookup at
any tuple is the factory index of the last declaring handle, falling back
to the incoming table, and whose keys stay duplicate-free. -/
theorem configureLoop_spec (t : String) :
    ∀ (ps : List Plugin) (i : Nat) (table : List (String × Nat)),
      (∀ p ∈ ps, p.AppMeta.isSome = true) →
      ∃ res, configureLoop ps i table = some res ∧
        mapGet res t
          = (match lastDecl (ps.map (fun p => (p.AppMeta.getD ⟨[]⟩).Tuples)) t with
             | some j => some (i + j)
             | none => mapGet table t) ∧
        ((keysOf table).Nodup → (keysOf res).Nodup) := by
  intro ps
  induction ps with
  | nil => intro i table _; exact ⟨table, rfl, rfl, fun h => h⟩
  | cons p rest ih =>
      intro i table hall
      rcases hmeta : p.AppMeta with _ | meta
      · have := hall p (List.mem_cons_self p rest)
        simp [hmeta] at this
      · have hrest : ∀ q ∈ rest, q.AppMeta.isSome = true :=
          fun q hq => hall q (List.mem_cons_of_mem p hq)
        rcases ih (i + 1) (meta.Tuples.foldl (fun tb u => mapSet tb u i) table) hrest
          with ⟨res, hres, hget, hnd⟩
        refine ⟨res, ?_, ?_, ?_⟩
        · simp [configureLoop, hmeta, hres]
        · rw [hget]
          simp only [List.map_cons, hmeta, Option.getD_some, lastDecl]
          rcases hld : lastDecl (rest.map (fun p => (p.AppMeta.getD ⟨[]⟩).Tuples)) t
            with _ | j
          · simp only [hld, mapGet_installTuples i t meta.Tuples table]
            by_cases hmem : t ∈ meta.Tuples <;> simp [hmem]
          · simp only [hld]
            congr 1
            omega
        · intro hnodup
          exact hnd (nodup_installTuples i meta.Tuples table hnodup)

/-- C3 amended: ConfigureCore iterates every handle in the slice, not
only the successfully loaded ones, and crashes on a handle without
loaded metadata (see the counterexample). When every handle carries
loaded metadata it installs, for each handle and each tuple the metadata
declares, that handle factory under the tuple key, later handles in
iteration order overwriting earlier ones, with exactly one table entry
per tuple (duplicate-free keys); a nil table is initialized from empty,
and entries of a pre-existing table survive for tuples no handle
declares. -/
theorem configureCore_last_wins (dirs pmap : List String) (ps : List Plugin)
    (core : CoreConfig)
    (hall : ∀ p ∈ ps, p.AppMeta.isSome = true)
    (hbase : (keysOf (core.Apps.getD [])).Nodup) :
    ∃ table, PluginManager.ConfigureCore ⟨dirs, pmap, some ps⟩ core
        = some ⟨some table⟩ ∧
      (keysOf table).Nodup ∧
      ∀ t, mapGet table t
        = (match lastDecl (ps.map (fun p => (p.AppMeta.getD ⟨[]⟩).Tuples)) t with
           | some j => some j
           | none => mapGet (core.Apps.getD []) t) := by
  have hbody : ∀ t, ∃ res,
      configureLoop ps 0 (core.Apps.getD []) = some res ∧
      mapGet res t
        = (match lastDecl (ps.map (fun p => (p.AppMeta.getD ⟨[]⟩).Tuples)) t with
           | some j => some (0 + j)
           | none => mapGet (core.Apps.getD []) t) ∧
      ((keysOf (core.Apps.getD [])).Nodup → (keysOf res).Nodup) :=
    fun t => configureLoop_spec t ps 0 (core.Apps.getD []) hall
  rcases hbody "" with ⟨res, hres, _, hnd⟩
  refine ⟨res, ?_, hnd hbase, ?_⟩
  · simp [PluginManager.ConfigureCore, hres]
  · intro t
    rcases hbody t with ⟨res2, hres2, hget2, _⟩
    rw [hres] at hres2
    cases hres2
    rw [hget2]
    rcases hcase : lastDecl (ps.map (fun p => (p.AppMeta.getD ⟨[]⟩).Tuples)) t
      with _ | j <;> simp [hcase]

/-- Witness for the amended C3: two loaded handles both declaring tuple
T, the second also declaring U, over a nil table; the table resolves T to
the later handle. -/
theorem configureCore_last_wins_witness :
    (∀ p ∈ [(⟨"/a", [], "", some ⟨["T"]⟩, true, false⟩ : Plugin),
            ⟨"/b", [], "", some ⟨["T", "U"]⟩, true, false⟩],
       p.AppMeta.isSome = true) ∧
    (∃ table, PluginManager.ConfigureCore
        ⟨[], [], some [⟨"/a", [], "", some ⟨["T"]⟩, true, false⟩,
                       ⟨"/b", [], "", some ⟨["T", "U"]⟩, true, false⟩]⟩
        ⟨none⟩
        = some ⟨some table⟩ ∧
      (keysOf table).Nodup ∧
      ∀ t, mapGet table t
        = (match lastDecl
             ([(⟨"/a", [], "", some ⟨["T"]⟩, true, false⟩ : Plugin),
               ⟨"/b", [], "", some ⟨["T", "U"]⟩, true, false⟩].map
               (fun p => (p.AppMeta.getD ⟨[]⟩).Tuples)) t with
           | some j => some j
           | none => mapGet ((⟨none⟩ : CoreConfig).Apps.getD []) t)) :=
  ⟨by decide,
   configureCore_last_wins [] []
     [⟨"/a", [], "", some ⟨["T"]⟩, true, false⟩,
      ⟨"/b", [], "", some ⟨["T", "U"]⟩, true, false⟩]
     ⟨none⟩ (by decide) (by decide)⟩

/-- Setting a list element replaces its contribution to a countP. -/
theorem countP_taskSet (p : TaskPhase → Bool) :
    ∀ (l : List TaskPhase) (i : Nat) (a b : TaskPhase), l.get? i = some a →
      (l.set i b).countP p + (if p a then 1 else 0)
        = l.countP p + (if p b then 1 else 0) := by
  intro l
  induction l with
  | nil => intro i a b h; simp at h
  | cons x xs ih =>
      intro i a b h
      cases i with
      | zero =>
          simp only [List.get?_cons_zero, Option.some.injEq] at h
          subst h
          simp only [List.set_cons_zero, List.countP_cons]
          omega
      | succ n =>
          simp only [List.get?_cons_succ] at h
          have := ih n a b h
          simp only [List.set_cons_succ, List.countP_cons]
          omega

/-- No task is working before the pass starts. -/
theorem countWorking_replicate_pending (k : Nat) :
    countWorking (List.replicate k .pending) = 0 := by
  induction k with
  | zero => rfl
  | succ n ih =>
      rw [List.replicate_succ]
      simp only [countWorking, List.countP_cons] at ih ⊢
      simp [ih]

/-- Invariant of the pass: working tasks and free permits always sum to
the permit count. -/
theorem sema_invariant (numCPU numTasks : Nat) (s : SemaState)
    (h : SemaReach numCPU numTasks s) :
    countWorking s.tasks + s.avail = numCPU := by
  induction h with
  | init =>
      show countWorking (List.replicate numTasks .pending) + numCPU = numCPU
      simp [countWorking_replicate_pending]
  | @step s t hr hs ih =>
      cases hs with
      | acquire i hp ha =>
          have hc := countP_taskSet
            (fun u => match u with | .working => true | _ => false)
            s.tasks i .pending .working hp
          simp only [countWorking] at ih ⊢
          simp at hc
          omega
      | release i hw =>
          have hc := countP_taskSet
            (fun u => match u with | .working => true | _ => false)
            s.tasks i .working .done hw
          simp only [countWorking] at ih ⊢
          simp at hc
          omega

/-- C9: in every state either pass can reach, the number of tasks
concurrently executing their work (Load or CalcMD5) never exceeds the
permit count of the semaphore, which is sized to the number of available
processing units. -/
theorem concurrency_bound (numCPU numTasks : Nat) (s : SemaState)
    (h : SemaReach numCPU numTasks s) :
    countWorking s.tasks ≤ numCPU := by
  have := sema_invariant numCPU numTasks s h
  omega

/-- Witness for C9: one permit, two tasks, after the first task acquired
the permit and started working. -/
theorem concurrency_bound_witness :
    SemaReach 1 2 ⟨0, [.working, .pending]⟩ ∧
    countWorking [TaskPhase.working, TaskPhase.pending] ≤ 1 := by
  have hstep : SemaStep (semaInit 1 2) ⟨0, [.working, .pending]⟩ := by
    have h2 := SemaStep.acquire (semaInit 1 2) 0 rfl (by decide)
    simpa [semaInit] using h2
  have hreach : SemaReach 1 2 ⟨0, [.working, .pending]⟩ :=
    SemaReach.step SemaReach.init hstep
  exact ⟨hreach, concurrency_bound 1 2 ⟨0, [.working, .pending]⟩ hreach⟩

/-- Hashing a plugin in place never changes its recipe or its used flag. -/
theorem hashInPlace_fields (rf : String → Option (List Nat))
    (dg : List Nat → List Nat) (p : Plugin) :
    (hashInPlace rf dg p).Path = p.Path ∧
    (hashInPlace rf dg p).Args = p.Args ∧
    (hashInPlace rf dg p).used = p.used := by
  unfold hashInPlace calcMD5
  cases rf p.Path <;> simp [pstep]

/-- When the file is readable, the in-place hash stores the hex digest of
its content. -/
theorem hashInPlace_md5 (rf : String → Option (List Nat))
    (dg : List Nat → List Nat) (p : Plugin) (c : List Nat)
    (hc : rf p.Path = some c) :
    (hashInPlace rf dg p).MD5 = hexEncodeToString (dg c) := by
  unfold hashInPlace calcMD5
  rw [hc]
  simp [pstep]

/-- Manifest round trip of one handle, then a re-Load: the recipe is
unchanged. -/
theorem roundTrip_pathArgs (rf : String → Option (List Nat))
    (dg : List Nat → List Nat) (outcome : Plugin → Except String Meta)
    (p : Plugin) :
    ((loadPlugin outcome (decodePlugin (encodePlugin (hashInPlace rf dg p)))).1.Path
       = p.Path) ∧
    ((loadPlugin outcome (decodePlugin (encodePlugin (hashInPlace rf dg p)))).1.Args
       = p.Args) := by
  obtain ⟨hp, ha, _⟩ :=
    loadPlugin_fields outcome (decodePlugin (encodePlugin (hashInPlace rf dg p)))
  obtain ⟨hp2, ha2, _⟩ := hashInPlace_fields rf dg p
  exact ⟨by rw [hp]; exact hp2, by rw [ha]; exact ha2⟩

/-- Manifest round trip of one handle, then a re-Load: the hash is the
freshly computed digest of the file content. -/
theorem roundTrip_md5 (rf : String → Option (List Nat))
    (dg : List Nat → List Nat) (outcome : Plugin → Except String Meta)
    (p : Plugin) (c : List Nat) (hc : rf p.Path = some c) :
    (loadPlugin outcome (decodePlugin (encodePlugin (hashInPlace rf dg p)))).1.MD5
      = hexEncodeToString (dg c) := by
  obtain ⟨_, _, hm⟩ :=
    loadPlugin_fields outcome (decodePlugin (encodePlugin (hashInPlace rf dg p)))
  rw [hm]
  exact hashInPlace_md5 rf dg p c hc

/-- C7: when every used handle hashes successfully, StoreUsed writes a
manifest that LoadUsed turns back into a live handle set whose path and
args pairs equal, in order, those of exactly the handles that were used
at store time, each carrying a non-empty hash, whatever the outcomes of
the re-Loads. -/
theorem store_load_round_trip (rf : String → Option (List Nat))
    (dg : List Nat → List Nat) (outcome : Plugin → Except String Meta)
    (tm : Bool) (exeRes : Except String String) (m m2 : PluginManager)
    (hdg : ∀ c, (dg c).length = 16)
    (hrf : ∀ p ∈ (m.plugins.getD []).filter (fun q => q.used),
      (rf p.Path).isSome = true) :
    ∃ w : usedPluginWrapper,
      (m.StoreUsed rf dg (.ok ())).2 = .ok w ∧
      (((m2.LoadUsed (.ok w) outcome tm exeRes).1.plugins.getD []).map
          (fun p => (p.Path, p.Args))
        = ((m.plugins.getD []).filter (fun q => q.used)).map
            (fun p => (p.Path, p.Args))) ∧
      ∀ p ∈ (m2.LoadUsed (.ok w) outcome tm exeRes).1.plugins.getD [],
        p.MD5 ≠ "" := by
  have hL : (m2.LoadUsed
      (.ok ⟨usedPluginVersion,
        (((m.plugins.getD []).filter (fun q => q.used)).map
          (hashInPlace rf dg)).map encodePlugin⟩)
      outcome tm exeRes).1.plugins.getD []
    = ((m.plugins.getD []).filter (fun q => q.used)).map
        (fun p => (loadPlugin outcome
          (decodePlugin (encodePlugin (hashInPlace rf dg p)))).1) := by
    simp only [PluginManager.LoadUsed, gt_iff_lt, lt_irrefl, if_false,
      PluginManager.LoadAll, loadLoop_spec]
    cases hE : (((((m.plugins.getD []).filter (fun q => q.used)).map
        (hashInPlace rf dg)).map encodePlugin).map decodePlugin).filterMap
        (fun p => ((loadPlugin outcome p).2).map
          (fun e => "Error loading plugin " ++ p.Path ++ ": " ++ e)) <;>
      simp [List.map_map, Function.comp]
  refine ⟨⟨usedPluginVersion,
    (((m.plugins.getD []).filter (fun q => q.used)).map
      (hashInPlace rf dg)).map encodePlugin⟩, ?_, ?_, ?_⟩
  · rfl
  · rw [hL]
    induction ((m.plugins.getD []).filter (fun q => q.used)) with
    | nil => rfl
    | cons p rest ih =>
        simp only [List.map_cons, List.cons.injEq]
        obtain ⟨h1, h2⟩ := roundTrip_pathArgs rf dg outcome p
        exact ⟨by rw [h1, h2], ih⟩
  · intro q hq
    rw [hL] at hq
    obtain ⟨p, hp, rfl⟩ := List.mem_map.mp hq
    obtain ⟨c, hc⟩ := Option.isSome_iff_exists.mp (hrf p hp)
    rw [roundTrip_md5 rf dg outcome p c hc]
    apply hexEncodeToString_ne_empty
    intro hnil
    have := hdg c
    rw [hnil] at this
    simp at this

/-- Witness for C7: two handles, one used, readable file, fixed digest,
and re-Loads that all fail (the round trip does not depend on them). -/
theorem store_load_round_trip_witness :
    (∀ c : List Nat, ((fun _ : List Nat => List.replicate 16 1) c).length = 16) ∧
    (∀ p ∈ (((⟨[], [], some [⟨"/a", ["u"], "", none, false, true⟩,
                             ⟨"/b", [], "", none, false, false⟩]⟩ :
        PluginManager).plugins.getD []).filter (fun q => q.used)),
      (((fun _ : String => some [7]) p.Path)).isSome = true) ∧
    (∃ w : usedPluginWrapper,
      ((⟨[], [], some [⟨"/a", ["u"], "", none, false, true⟩,
                       ⟨"/b", [], "", none, false, false⟩]⟩ :
          PluginManager).StoreUsed (fun _ => some [7])
          (fun _ => List.replicate 16 1) (.ok ())).2 = .ok w ∧
      ((((⟨[], [], none⟩ : PluginManager).LoadUsed (.ok w)
            (fun _ => .error "boom") false
            (.error "x")).1.plugins.getD []).map (fun p => (p.Path, p.Args))
        = (((⟨[], [], some [⟨"/a", ["u"], "", none, false, true⟩,
                            ⟨"/b", [], "", none, false, false⟩]⟩ :
              PluginManager).plugins.getD []).filter (fun q => q.used)).map
            (fun p => (p.Path, p.Args))) ∧
      ∀ p ∈ ((⟨[], [], none⟩ : PluginManager).LoadUsed (.ok w)
          (fun _ => .error "boom") false
          (.error "x")).1.plugins.getD [], p.MD5 ≠ "") :=
  ⟨fun _ => rfl, fun _ _ => rfl,
   store_load_round_trip (fun _ => some [7]) (fun _ => List.replicate 16 1)
     (fun _ => .error "boom") false (.error "x")
     ⟨[], [], some [⟨"/a", ["u"], "", none, false, true⟩,
                    ⟨"/b", [], "", none, false, false⟩]⟩
     ⟨[], [], none⟩ (fun _ => rfl) (fun _ _ => rfl)⟩

end Otto
